import Mathlib

/-!
Verification of the split-tunnel path monitor
(`talpid-core/src/split_tunnel/windows/path_monitor.rs`).

The embedding models Windows paths as their component lists (the value of
Rust's `Path::components()` iterator), the filesystem's reparse-point layer
as an oracle function, and the monitor loop as explicit state-passing step
functions that also record an effect trace (log calls, channel sends,
multiplexer interactions).
-/

set_option maxHeartbeats 1000000

deriving instance DecidableEq for Except

namespace PathMonitorModel

/-- One component of a Rust `Path::components()` iterator:
`vol` is `Component::Prefix` (e.g. `C:`), `root` is `Component::RootDir`,
`norm` is `Component::Normal`. -/
inductive Component
  | vol (s : String)
  | root
  | norm (s : String)
deriving DecidableEq

/-- A path, as its component list.  `PathBuf::push` of a component taken
from another path's components iterator appends that component, so path
building in the source corresponds to list append here. -/
abbrev Path := List Component

/-- Error kinds of `std::io::Error` that the source distinguishes
(`io::ErrorKind::NotFound` against everything else). -/
inductive ErrKind
  | notFound
  | permissionDenied
  | other
deriving DecidableEq

/-- A model `std::io::Error`: only its kind is ever inspected. -/
structure IOErr where
  kind : ErrKind
deriving DecidableEq

/-- The string of one component, as `Path::as_os_str` renders it. -/
def compString : Component → String
  | Component.vol s => s
  | Component.root => "\\"
  | Component.norm s => s

/-- Model of `OsStr::encode_wide` of a path: the backslash-joined component
strings, as a character list (standing for the u16 code units). -/
def encodeWide (p : Path) : List Char :=
  (String.intercalate "\\" (p.map compString)).toList

/-- Structure `StrippedPath` from the source: the watch-directory `pfx`
(field `prefix` in the source) and the encoded remainder `tail`. -/
structure StrippedPath where
  pfx : Path
  tail : List Char
deriving DecidableEq

/-- Model of `PathMonitor::strip_path`.  The source takes the first component
(else error "path is missing prefix"), joins the second component onto it
(else error "path is missing root"), and encodes the rest as the tail.
Joining the second component onto the first reproduces the two-component
path, so `pfx` is the first two components. -/
def stripPath (p : Path) : Except String StrippedPath :=
  match p with
  | [] => Except.error "path is missing prefix"
  | [_] => Except.error "path is missing root"
  | c0 :: c1 :: rest => Except.ok { pfx := [c0, c1], tail := encodeWide rest }

/-! ## The reparse-point oracle and link resolution -/

/-- The filesystem's reparse-point layer, as seen through `resolve_link`:
for a path it either fails with an `io::Error`, reports "not a redirecting
link" (`none`), or yields the link target (`some target`). -/
abbrev FS := Path → Except IOErr (Option Path)

/-- Whether the oracle reports a redirecting link at `p` (the only case
`resolve_all_links` acts on: `Ok(Some(target))`). -/
def isLinkB (fs : FS) (p : Path) : Bool :=
  match fs p with
  | Except.ok (some _) => true
  | _ => false

/-- The component walk of `resolve_all_links`: starting from the
accumulated `partialPath`, push one component at a time and query
`resolve_link`; at the first `Ok(Some(target))` stop and report the path
the source recurses on (`target.join(iter)`, i.e. the target followed by
the not-yet-consumed components).  Errors and `Ok(None)` both fall through
to the next component (`if let Ok(Some(target))`). -/
def findFirstLink (fs : FS) : Path → List Component → Option Path
  | _, [] => none
  | partialPath, c :: rest =>
    match fs (partialPath ++ [c]) with
    | Except.ok (some target) => some (target ++ rest)
    | _ => findFirstLink fs (partialPath ++ [c]) rest

/-- Model of `resolve_all_links`.  The result layers are: outer `Option` = the
call returns at all (`none` models the divergence of the source's
unbounded recursion on cyclic links, cut by `fuel`); inner `Except` = the
`io::Result`.  The source seeds the result list with the argument path,
demands two leading components (else the "path must be absolute" error),
walks the remaining components, and on the first redirecting ancestor
recurses on the target joined with the remaining components, propagating
that recursion's error with `?`. -/
def resolveAllLinks (fs : FS) : Nat → Path → Option (Except String (List Path))
  | 0, _ => none
  | fuel + 1, p =>
    if p.length < 2 then some (Except.error "path must be absolute")
    else
      match findFirstLink fs (p.take 2) (p.drop 2) with
      | none => some (Except.ok [p])
      | some nextPath =>
        match resolveAllLinks fs fuel nextPath with
        | none => none
        | some (Except.error e) => some (Except.error e)
        | some (Except.ok l) => some (Except.ok (p :: l))

/-- Oracle transform showing `resolve_link` errors never influence `resolve_all_links`: squashing
every oracle error (and `Ok(None)`) to `Ok(None)` is invisible to it. -/
def errSquash (fs : FS) : FS := fun p =>
  match fs p with
  | Except.ok (some t) => Except.ok (some t)
  | _ => Except.ok none

/-! ## Effects

The externally visible actions of the monitor: log calls, the
notification channel send, the multiplexer wait, plus markers for the
rearm (`ReadDirectoryChangesW`), the batch parse, and each call of
`update_directory_contexts` (`reconcile`). -/

inductive Effect
  | notify
  | reconcile
  | rearmed (k : Nat)
  | parsedBatch (k : Nat)
  | warnNotFound (p : Path)
  | resolveFailed (p : Path)
  | logError
  | logDebug
  | waited
deriving DecidableEq

/-- Hash-set insertion, modelled on a duplicate-free list: keep the first
occurrence. -/
def hsInsert [DecidableEq α] (l : List α) (x : α) : List α :=
  if x ∈ l then l else l ++ [x]

/-- Model of `HashSet::extend`. -/
def hsExtend [DecidableEq α] (acc : List α) (l : List α) : List α :=
  l.foldl hsInsert acc

/-- Collect a list into a hash set. -/
def hsOfList [DecidableEq α] (l : List α) : List α :=
  l.foldl hsInsert []

/-- Worker of `resolve_all_links_multiple`: fold over the paths,
extending the accumulated set on success and logging (then skipping) on
error.  Divergence (`none`) of any one resolution diverges the whole
batch, exactly as the source's unbounded recursion would. -/
def resolveMultipleGo (fs : FS) (fuel : Nat) :
    List Path → List Path → List Effect → Option (List Path × List Effect)
  | [], acc, effs => some (acc, effs)
  | p :: rest, acc, effs =>
    match resolveAllLinks fs fuel p with
    | none => none
    | some (Except.ok l) => resolveMultipleGo fs fuel rest (hsExtend acc l) effs
    | some (Except.error _) =>
      resolveMultipleGo fs fuel rest acc (effs ++ [Effect.resolveFailed p])

/-- Model of `resolve_all_links_multiple`: best-effort resolution of a path list
into one set; its Rust signature returns a plain `HashSet` (no `Result`). -/
def resolveAllLinksMultiple (fs : FS) (fuel : Nat) (paths : List Path) :
    Option (List Path × List Effect) :=
  resolveMultipleGo fs fuel paths [] []

/-! ## The monitor loop -/

/-- Structure `DirContext`: the directory a watch is open on, the completion key it
was attached to the multiplexer under (the `index` argument of
`attach_to_io_port`, recorded here because the OS keeps delivering it),
and the current receive-buffer length (`buffer.len()`, initially 512). -/
structure DirContext where
  path : Path
  key : Nat
  bufferLen : Nat
deriving DecidableEq

instance : Inhabited DirContext := ⟨⟨[], 0, 0⟩⟩

/-- The monitor-thread state: `original_paths`, `resolved_paths`
(a `HashSet`), `monitor.stripped_paths` (a `HashSet`), and
`monitor.dir_contexts`. -/
structure LoopState where
  originalPaths : List Path
  resolvedPaths : List Path
  strippedPaths : List StrippedPath
  dirContexts : List DirContext
deriving DecidableEq

/-- The OS facilities the loop calls, as oracles: `DirContext::new`
(`openDir`), `attach_to_io_port` (`attach`), `read_directory_changes`
(`arm`), and `resolve_all_links_multiple` over the current filesystem
(`resolveMultiple`, returning the set as a list). -/
structure LoopEnv where
  openDir : Path → Except IOErr Unit
  attach : Path → Nat → Except IOErr Unit
  arm : Path → Except IOErr Unit
  resolveMultiple : List Path → List Path

/-- The stripped-path set computed from a path list:
`resolve_all_links_multiple(..).iter().filter_map(strip_path).collect()`. -/
def strippedOf (env : LoopEnv) (paths : List Path) : List StrippedPath :=
  hsOfList ((env.resolveMultiple paths).filterMap fun p => (stripPath p).toOption)

/-- The removal half of `update_directory_contexts`: dropping (in reverse
index order) every context whose path no longer backs a stripped path is
the order-preserving filter. -/
def keepContexts (stripped : List StrippedPath) (ctxs : List DirContext) :
    List DirContext :=
  ctxs.filter fun c => stripped.any fun sp => decide (sp.pfx = c.path)

/-- The addition half of `update_directory_contexts`: for each stripped
path whose watch directory has no context yet, open it ("not found" is
demoted to a warning and the path skipped; any other error is returned),
attach it under key `ctxs.length`, arm it, and append it. -/
def addContexts (env : LoopEnv) :
    List DirContext → List StrippedPath → Except IOErr (List DirContext) × List Effect
  | ctxs, [] => (Except.ok ctxs, [])
  | ctxs, sp :: rest =>
    if ctxs.any fun c => decide (c.path = sp.pfx) then
      addContexts env ctxs rest
    else
      match env.openDir sp.pfx with
      | Except.error e =>
        if e.kind = ErrKind.notFound then
          let r := addContexts env ctxs rest
          (r.1, Effect.warnNotFound sp.pfx :: r.2)
        else (Except.error e, [])
      | Except.ok _ =>
        match env.attach sp.pfx ctxs.length with
        | Except.error e => (Except.error e, [])
        | Except.ok _ =>
          match env.arm sp.pfx with
          | Except.error e => (Except.error e, [])
          | Except.ok _ =>
            addContexts env
              (ctxs ++ [{ path := sp.pfx, key := ctxs.length, bufferLen := 512 }]) rest

/-- Model of `PathMonitor::update_directory_contexts`. -/
def updateDirectoryContexts (env : LoopEnv) (stripped : List StrippedPath)
    (ctxs : List DirContext) : Except IOErr (List DirContext) × List Effect :=
  addContexts env (keepContexts stripped ctxs) stripped

/-- Model of `buffer.resize(2 * buffer.len())` on the context at index `k`. -/
def doubleBufferAt : List DirContext → Nat → List DirContext
  | [], _ => []
  | c :: rest, 0 => { c with bufferLen := 2 * c.bufferLen } :: rest
  | c :: rest, k + 1 => c :: doubleBufferAt rest k

/-- Constant `PATH_MONITOR_COMPLETION_KEY_IGNORE`: `usize::MAX`. -/
def PATH_MONITOR_COMPLETION_KEY_IGNORE : Nat := 2 ^ 64 - 1

/-- One delivered completion: `bytes_returned`, `completion_key`, whether
`used_overlapped` was null, and the change records the delivered buffer
parses into (each record reduced to its file name, a u16 string). -/
structure Completion where
  bytesReturned : Nat
  completionKey : Nat
  overlappedIsNull : Bool
  records : List (List Char)

/-- The record scan of the loop: a batch is relevant when some delivered
file name is a leading part of the `tail` of some stripped path whose
watch directory is the delivering context's path
(`path.tail.starts_with(file_name)`). -/
def relevantBatch (stripped : List StrippedPath) (dirPath : Path)
    (records : List (List Char)) : Bool :=
  records.any fun name =>
    stripped.any fun sp => decide (sp.pfx = dirPath) && name.isPrefixOf sp.tail

/-- The outcome of one loop step: keep looping (`next`) or break out of
the loop (`halt`), with the new state and the effects of the step. -/
inductive StepResult
  | next (s : LoopState) (effs : List Effect)
  | halt (s : LoopState) (effs : List Effect)
deriving DecidableEq

def StepResult.state : StepResult → LoopState
  | StepResult.next s _ => s
  | StepResult.halt s _ => s

def StepResult.effects : StepResult → List Effect
  | StepResult.next _ effs => effs
  | StepResult.halt _ effs => effs

def StepResult.isHalt : StepResult → Bool
  | StepResult.next _ _ => false
  | StepResult.halt _ _ => true

/-- The context the loop indexes under a delivered key:
`monitor.dir_contexts[result.completion_key]` (with a default that is
never reached, since the key is range-checked first). -/
def ctxAt (s : LoopState) (k : Nat) : DirContext :=
  s.dirContexts.getD k default

/-- The completion-handling tail of one loop iteration, from the match on
`get_queued_completion_status`'s successful result onwards: sentinel key
→ bare `continue`; key out of range → debug log and `continue`; zero
bytes → double that context's buffer; rearm the context (failure → error
log and `break`); zero bytes or null overlapped → `continue`; otherwise
parse the batch, and if it is relevant recompute the resolved set, and if
that differs reconcile (failure → error log and `break`) and send one
notification.  On a reconciliation failure the source may have mutated
`dir_contexts` in place before erring; the loop breaks immediately, so
that partial state is unobservable and the model keeps the prior list. -/
def handleCompletion (env : LoopEnv) (s : LoopState) (c : Completion) : StepResult :=
  if c.completionKey = PATH_MONITOR_COMPLETION_KEY_IGNORE then
    StepResult.next s []
  else if s.dirContexts.length ≤ c.completionKey then
    StepResult.next s [Effect.logDebug]
  else
    let ctx := ctxAt s c.completionKey
    let s1 := if c.bytesReturned = 0 then
        { s with dirContexts := doubleBufferAt s.dirContexts c.completionKey }
      else s
    let effs0 : List Effect := if c.bytesReturned = 0 then [Effect.logDebug] else []
    match env.arm ctx.path with
    | Except.error _ => StepResult.halt s1 (effs0 ++ [Effect.logError])
    | Except.ok _ =>
      let effs1 := effs0 ++ [Effect.rearmed c.completionKey]
      if c.bytesReturned = 0 || c.overlappedIsNull then
        StepResult.next s1 effs1
      else
        let effs2 := effs1 ++ [Effect.parsedBatch c.completionKey]
        if relevantBatch s1.strippedPaths ctx.path c.records then
          let newResolved := env.resolveMultiple s1.originalPaths
          if newResolved.toFinset = s1.resolvedPaths.toFinset then
            StepResult.next s1 effs2
          else
            let stripped := strippedOf env s1.originalPaths
            match updateDirectoryContexts env stripped s1.dirContexts with
            | (Except.ok ctxs2, effsU) =>
              StepResult.next
                { s1 with resolvedPaths := newResolved, strippedPaths := stripped,
                          dirContexts := ctxs2 }
                (effs2 ++ Effect.reconcile :: effsU ++ [Effect.notify])
            | (Except.error _, effsU) =>
              StepResult.halt
                { s1 with resolvedPaths := newResolved, strippedPaths := stripped }
                (effs2 ++ Effect.reconcile :: effsU ++ [Effect.logError])
        else
          StepResult.next s1 effs2

/-- Enum `PathMonitorCommand`. -/
inductive PathMonitorCommand
  | shutdown
  | setPaths (ps : List Path)

/-- The `SetPaths` arm of the command drain: replace the original paths,
recompute the resolved and stripped sets, and reconcile; a reconciliation
error is logged and sets `stop_monitor` (the `Bool`), upon which the loop
breaks at once, leaving any partial in-place context mutation of the
source unobservable. -/
def applySetPaths (env : LoopEnv) (s : LoopState) (ps : List Path) :
    LoopState × List Effect × Bool :=
  let resolved := env.resolveMultiple ps
  let stripped := strippedOf env ps
  match updateDirectoryContexts env stripped s.dirContexts with
  | (Except.ok ctxs2, effsU) =>
    ({ originalPaths := ps, resolvedPaths := resolved, strippedPaths := stripped,
       dirContexts := ctxs2 },
     Effect.reconcile :: effsU, false)
  | (Except.error _, effsU) =>
    ({ originalPaths := ps, resolvedPaths := resolved, strippedPaths := stripped,
       dirContexts := s.dirContexts },
     Effect.reconcile :: effsU ++ [Effect.logError], true)

/-- The non-blocking command drain
(`while let Some(cmd) = cmd_rx.try_iter().next()`): commands are taken in
queue order; `Shutdown` sets `stop_monitor` and breaks (later commands
are never read); a failed `SetPaths` reconciliation does the same. -/
def drainCommands (env : LoopEnv) (s : LoopState) :
    List PathMonitorCommand → LoopState × List Effect × Bool
  | [] => (s, [], false)
  | PathMonitorCommand.shutdown :: _ => (s, [], true)
  | PathMonitorCommand.setPaths ps :: rest =>
    let r := applySetPaths env s ps
    if r.2.2 then (r.1, r.2.1, true)
    else
      let r2 := drainCommands env r.1 rest
      (r2.1, r.2.1 ++ r2.2.1, r2.2.2)

/-- What the blocking multiplexer wait would produce, were it reached. -/
inductive WaitInput
  | waitErr
  | delivered (c : Completion)

def prependEffects (pre : List Effect) : StepResult → StepResult
  | StepResult.next s effs => StepResult.next s (pre ++ effs)
  | StepResult.halt s effs => StepResult.halt s (pre ++ effs)

/-- One full iteration of the loop body: drain the queued commands; if
`stop_monitor` was set, break before ever reaching
`get_queued_completion_status`; otherwise block on the multiplexer
(effect `waited`; an `Err` from the wait is logged and breaks) and handle
the delivered completion. -/
def loopIter (env : LoopEnv) (s : LoopState) (queue : List PathMonitorCommand)
    (w : WaitInput) : StepResult :=
  let d := drainCommands env s queue
  if d.2.2 then StepResult.halt d.1 d.2.1
  else
    match w with
    | WaitInput.waitErr => StepResult.halt d.1 (d.2.1 ++ [Effect.waited, Effect.logError])
    | WaitInput.delivered c =>
      prependEffects (d.2.1 ++ [Effect.waited]) (handleCompletion env d.1 c)

/-- The synchronous part of `PathMonitor::spawn` that the claims are
about: resolve and strip the initial paths, then run the initial
reconciliation from an empty context list, propagating its error with
`?`. -/
def spawnInit (env : LoopEnv) (paths : List Path) :
    Except IOErr LoopState × List Effect :=
  let resolved := env.resolveMultiple paths
  let stripped := strippedOf env paths
  match updateDirectoryContexts env stripped [] with
  | (Except.ok ctxs, effs) =>
    (Except.ok { originalPaths := paths, resolvedPaths := resolved,
                 strippedPaths := stripped, dirContexts := ctxs }, effs)
  | (Except.error e, effs) => (Except.error e, effs)

/-- Whether an `Except` holds an `ok`. -/
def exceptIsOk : Except IOErr (List DirContext) → Bool
  | Except.ok _ => true
  | Except.error _ => false

/-- Whether an open attempt failed (with any kind). -/
def isErrB : Except IOErr Unit → Bool
  | Except.error _ => true
  | Except.ok _ => false

/-- Whether an open attempt failed only benignly: it succeeded or failed
with `NotFound`. -/
def openOkOrNotFound (env : LoopEnv) (p : Path) : Bool :=
  match env.openDir p with
  | Except.ok _ => true
  | Except.error e => decide (e.kind = ErrKind.notFound)

/-- Extract the payload of an `ok`, with a fallback. -/
def exceptOkD (x : Except IOErr (List DirContext)) (d : List DirContext) :
    List DirContext :=
  match x with
  | Except.ok l => l
  | Except.error _ => d

/-- Concatenation of the successful resolutions of a path list: what
`resolve_all_links_multiple` keeps. -/
def okResolutions (fs : FS) (fuel : Nat) (paths : List Path) : List Path :=
  (paths.filterMap fun p =>
    match resolveAllLinks fs fuel p with
    | some (Except.ok l) => some l
    | _ => none).flatten

/-- Whether resolving one path fails (with the io error of the model). -/
def isErrResolve (fs : FS) (fuel : Nat) (p : Path) : Bool :=
  match resolveAllLinks fs fuel p with
  | some (Except.error _) => true
  | _ => false

/-- The set returned by `resolve_all_links_multiple` (defaulting when it
diverges). -/
def multiSetOf (fs : FS) (fuel : Nat) (paths : List Path) : List Path :=
  ((resolveAllLinksMultiple fs fuel paths).getD ([], [])).1

/-- The log effects of `resolve_all_links_multiple`. -/
def multiEffsOf (fs : FS) (fuel : Nat) (paths : List Path) : List Effect :=
  ((resolveAllLinksMultiple fs fuel paths).getD ([], [])).2

/-! ## Helper lemmas: link resolution -/

theorem findFirstLink_none_of_noLinks (fs : FS) :
    ∀ (rest : List Component) (base : Path),
      (∀ j, j < rest.length → isLinkB fs (base ++ rest.take (j + 1)) = false) →
      findFirstLink fs base rest = none := by
  intro rest
  induction rest with
  | nil => intro base _; rfl
  | cons c rest ih =>
    intro base h
    have h0 := h 0 (by simp)
    simp only [List.take_succ_cons, List.take_zero] at h0
    simp only [findFirstLink]
    cases hfs : fs (base ++ [c]) with
    | ok o =>
      cases o with
      | some t => simp [isLinkB, hfs] at h0
      | none =>
        apply ih (base ++ [c])
        intro j hj
        have hstep := h (j + 1) (by simpa using Nat.succ_lt_succ hj)
        rw [List.take_succ_cons] at hstep
        rw [show base ++ c :: List.take (j + 1) rest
              = (base ++ [c]) ++ List.take (j + 1) rest by simp] at hstep
        exact hstep
    | error e =>
      apply ih (base ++ [c])
      intro j hj
      have hstep := h (j + 1) (by simpa using Nat.succ_lt_succ hj)
      rw [List.take_succ_cons] at hstep
      rw [show base ++ c :: List.take (j + 1) rest
            = (base ++ [c]) ++ List.take (j + 1) rest by simp] at hstep
      exact hstep

theorem resolveAllLinks_head (fs2 : FS) (fuel2 : Nat) (q : Path) (l : List Path)
    (h : resolveAllLinks fs2 fuel2 q = some (Except.ok l)) : l.head? = some q := by
  cases fuel2 with
  | zero => simp [resolveAllLinks] at h
  | succ n =>
    simp only [resolveAllLinks] at h
    split at h
    · simp at h
    · split at h
      · simp at h; subst h; rfl
      · split at h
        · simp at h
        · simp at h
        · simp at h; subst h; rfl

theorem findFirstLink_errSquash (fs : FS) :
    ∀ (rest : List Component) (base : Path),
      findFirstLink (errSquash fs) base rest = findFirstLink fs base rest := by
  intro rest
  induction rest with
  | nil => intro base; rfl
  | cons c rest ih =>
    intro base
    simp only [findFirstLink, errSquash]
    cases hfs : fs (base ++ [c]) with
    | ok o => cases o <;> simp [ih]
    | error e => simp [ih]

theorem resolveAllLinks_errSquash (fs : FS) :
    ∀ (fuel : Nat) (p : Path),
      resolveAllLinks (errSquash fs) fuel p = resolveAllLinks fs fuel p := by
  intro fuel
  induction fuel with
  | zero => intro p; rfl
  | succ n ih =>
    intro p
    simp only [resolveAllLinks, findFirstLink_errSquash, ih]

theorem resolveAllLinks_error_eq (fs : FS) :
    ∀ (fuel : Nat) (p : Path) (e : String),
      resolveAllLinks fs fuel p = some (Except.error e) →
      e = "path must be absolute" := by
  intro fuel
  induction fuel with
  | zero => intro p e h; simp [resolveAllLinks] at h
  | succ n ih =>
    intro p e h
    simp only [resolveAllLinks] at h
    split at h
    · simp at h; exact h.symm
    · split at h
      · simp at h
      · split at h
        · simp at h
        · rename_i hres
          simp at h
          subst h
          exact ih _ _ hres
        · simp at h

/-! ## Helper lemmas: hash-set model -/

theorem hsInsert_toFinset [DecidableEq α] (l : List α) (x : α) :
    (hsInsert l x).toFinset = insert x l.toFinset := by
  ext y
  by_cases hx : x ∈ l <;> simp [hsInsert, hx]
  aesop

theorem hsExtend_toFinset [DecidableEq α] :
    ∀ (l acc : List α), (hsExtend acc l).toFinset = acc.toFinset ∪ l.toFinset := by
  intro l
  induction l with
  | nil => intro acc; simp [hsExtend]
  | cons x rest ih =>
    intro acc
    have hstep : hsExtend acc (x :: rest) = hsExtend (hsInsert acc x) rest := rfl
    rw [hstep, ih, hsInsert_toFinset]
    ext y
    simp only [Finset.mem_union, Finset.mem_insert, List.mem_toFinset, List.mem_cons]
    tauto

/-! ## Helper lemmas: resolve_all_links_multiple -/

theorem resolveMultipleGo_spec (fs : FS) (fuel : Nat) :
    ∀ (ps acc : List Path) (effs : List Effect),
      (∀ p ∈ ps, resolveAllLinks fs fuel p ≠ none) →
      ∃ acc2 delta,
        resolveMultipleGo fs fuel ps acc effs = some (acc2, effs ++ delta)
        ∧ acc2.toFinset = acc.toFinset ∪ (okResolutions fs fuel ps).toFinset
        ∧ ∀ p ∈ ps, isErrResolve fs fuel p = true → Effect.resolveFailed p ∈ delta := by
  intro ps
  induction ps with
  | nil =>
    intro acc effs _
    exact ⟨acc, [], by simp [resolveMultipleGo], by simp [okResolutions], by simp⟩
  | cons p rest ih =>
    intro acc effs hconv
    have hp := hconv p (by simp)
    cases hr : resolveAllLinks fs fuel p with
    | none => exact absurd hr hp
    | some r =>
      cases r with
      | ok l =>
        obtain ⟨acc2, delta, heq, hfin, herr⟩ :=
          ih (hsExtend acc l) effs (fun q hq => hconv q (List.mem_cons_of_mem _ hq))
        refine ⟨acc2, delta, ?_, ?_, ?_⟩
        · simpa [resolveMultipleGo, hr] using heq
        · have hok : okResolutions fs fuel (p :: rest) = l ++ okResolutions fs fuel rest := by
            simp [okResolutions, List.filterMap_cons, hr]
          rw [hfin, hsExtend_toFinset, hok, List.toFinset_append, Finset.union_assoc]
        · intro q hq hqe
          rcases List.mem_cons.mp hq with hq | hq
          · subst hq
            simp [isErrResolve, hr] at hqe
          · exact herr q hq hqe
      | error e =>
        obtain ⟨acc2, delta, heq, hfin, herr⟩ :=
          ih acc (effs ++ [Effect.resolveFailed p])
            (fun q hq => hconv q (List.mem_cons_of_mem _ hq))
        refine ⟨acc2, Effect.resolveFailed p :: delta, ?_, ?_, ?_⟩
        · rw [show effs ++ Effect.resolveFailed p :: delta
                = (effs ++ [Effect.resolveFailed p]) ++ delta by simp]
          simpa [resolveMultipleGo, hr] using heq
        · rw [hfin]
          have : okResolutions fs fuel (p :: rest) = okResolutions fs fuel rest := by
            simp [okResolutions, List.filterMap_cons, hr]
          rw [this]
        · intro q hq hqe
          rcases List.mem_cons.mp hq with hq | hq
          · subst hq; exact List.mem_cons_self _ _
          · exact List.mem_cons_of_mem _ (herr q hq hqe)

/-! ## Claim C2 -/

/-- Claim C2: for every absolute path (volume prefix plus root component)
none of whose accumulated ancestor sub-paths is a redirecting link,
`resolve_all_links` returns exactly the one-element list holding that
path; and whenever `resolve_all_links` succeeds, the original unresolved
path is the first entry of the returned list.  The accumulated sub-paths
the walk queries are exactly the component-list prefixes of length 3 up
to the full length. -/
theorem c2_resolve_identity_and_head (fs : FS) (fuel : Nat) (v : String)
    (rest : List Component)
    (hnl : ∀ k, 3 ≤ k → k ≤ (Component.vol v :: Component.root :: rest).length →
      isLinkB fs ((Component.vol v :: Component.root :: rest).take k) = false) :
    resolveAllLinks fs (fuel + 1) (Component.vol v :: Component.root :: rest)
      = some (Except.ok [Component.vol v :: Component.root :: rest])
    ∧ ∀ (fs2 : FS) (fuel2 : Nat) (q : Path) (l : List Path),
        resolveAllLinks fs2 fuel2 q = some (Except.ok l) → l.head? = some q := by
  constructor
  · have hfind : findFirstLink fs
        ((Component.vol v :: Component.root :: rest).take 2)
        ((Component.vol v :: Component.root :: rest).drop 2) = none := by
      apply findFirstLink_none_of_noLinks
      intro j hj
      have harg := hnl (j + 3) (by omega) (by simp at hj ⊢; omega)
      have hsplit : (Component.vol v :: Component.root :: rest).take (j + 3)
          = (Component.vol v :: Component.root :: rest).take 2
            ++ ((Component.vol v :: Component.root :: rest).drop 2).take (j + 1) := by
        rw [show j + 3 = 2 + (j + 1) by omega, List.take_add]
      rw [hsplit] at harg
      exact harg
    simp only [resolveAllLinks]
    rw [if_neg (by simp), hfind]
  · exact fun fs2 fuel2 q l h => resolveAllLinks_head fs2 fuel2 q l h

def c2FS : FS := fun _ => Except.ok none

def c2P : Path := [Component.vol "C:", Component.root, Component.norm "a"]

theorem c2_resolve_identity_and_head_witness :
    resolveAllLinks c2FS 1 c2P = some (Except.ok [c2P])
    ∧ [c2P].head? = some c2P :=
  ⟨(c2_resolve_identity_and_head c2FS 0 "C:" [Component.norm "a"]
      (fun _ _ _ => rfl)).1,
   (c2_resolve_identity_and_head c2FS 0 "C:" [Component.norm "a"]
      (fun _ _ _ => rfl)).2 c2FS 1 c2P [c2P] rfl⟩

/-! ## Claim C10 -/

/-- Claim C10: the only error `resolve_all_links` ever returns is the
"path must be absolute" error, raised exactly when the input path (or a
recursively constructed target path) has fewer than two leading
components; and every error of `resolve_link` during the ancestor walk is
discarded as "not a link" — squashing all oracle errors to `Ok(None)`
leaves the function's value unchanged, so such errors never propagate. -/
theorem c10_errors (fs : FS) (fuel : Nat) (p q : Path) (e : String)
    (herr : resolveAllLinks fs fuel p = some (Except.error e))
    (hshort : q.length < 2) :
    e = "path must be absolute"
    ∧ resolveAllLinks fs (fuel + 1) q = some (Except.error "path must be absolute")
    ∧ resolveAllLinks (errSquash fs) fuel p = resolveAllLinks fs fuel p := by
  refine ⟨resolveAllLinks_error_eq fs fuel p e herr, ?_, resolveAllLinks_errSquash fs fuel p⟩
  simp only [resolveAllLinks]
  rw [if_pos hshort]

def c10FS : FS := fun _ => Except.error ⟨ErrKind.permissionDenied⟩

theorem c10_errors_witness :
    "path must be absolute" = "path must be absolute"
    ∧ resolveAllLinks c10FS 2 [Component.vol "C:"]
        = some (Except.error "path must be absolute")
    ∧ resolveAllLinks (errSquash c10FS) 1 [Component.vol "C:"]
        = resolveAllLinks c10FS 1 [Component.vol "C:"] :=
  c10_errors c10FS 1 [Component.vol "C:"] [Component.vol "C:"]
    "path must be absolute" (by decide) (by decide)

/-! ## Claim C7 -/

/-- Claim C7: `resolve_all_links_multiple` resolves each path
independently, best-effort: whenever every per-path resolution comes back
(the model's fuel does not cut a divergent link cycle), the batch itself
comes back (the Rust signature has no error to return), its set is
exactly the union of the successful resolutions, and every path whose
resolution failed is logged and merely skipped. -/
theorem c7_multiple_best_effort (fs : FS) (fuel : Nat) (paths : List Path)
    (hconv : ∀ p ∈ paths, resolveAllLinks fs fuel p ≠ none) :
    (resolveAllLinksMultiple fs fuel paths).isSome = true
    ∧ (multiSetOf fs fuel paths).toFinset = (okResolutions fs fuel paths).toFinset
    ∧ ∀ p ∈ paths, isErrResolve fs fuel p = true →
        Effect.resolveFailed p ∈ multiEffsOf fs fuel paths := by
  obtain ⟨acc2, delta, heq, hfin, herr⟩ := resolveMultipleGo_spec fs fuel paths [] [] hconv
  have hmain : resolveAllLinksMultiple fs fuel paths = some (acc2, delta) := by
    simpa [resolveAllLinksMultiple] using heq
  refine ⟨by simp [hmain], ?_, ?_⟩
  · rw [show multiSetOf fs fuel paths = acc2 by simp [multiSetOf, hmain]]
    simpa using hfin
  · intro p hp hpe
    rw [show multiEffsOf fs fuel paths = delta by simp [multiEffsOf, hmain]]
    exact herr p hp hpe

def c7FS : FS := fun _ => Except.ok none

def c7Good : Path := [Component.vol "C:", Component.root]

def c7Bad : Path := [Component.vol "D:"]

theorem c7_multiple_best_effort_witness :
    (resolveAllLinksMultiple c7FS 1 [c7Good, c7Bad]).isSome = true
    ∧ (multiSetOf c7FS 1 [c7Good, c7Bad]).toFinset
        = (okResolutions c7FS 1 [c7Good, c7Bad]).toFinset
    ∧ Effect.resolveFailed c7Bad ∈ multiEffsOf c7FS 1 [c7Good, c7Bad] := by
  have h := c7_multiple_best_effort c7FS 1 [c7Good, c7Bad] (by decide)
  exact ⟨h.1, h.2.1, h.2.2 c7Bad (by decide) (by decide)⟩

/-! ## Helper lemmas: reconciliation -/

theorem keepContexts_mem (stripped : List StrippedPath) (ctxs : List DirContext)
    (c : DirContext) (hc : c ∈ keepContexts stripped ctxs) :
    c ∈ ctxs ∧ ∃ sp ∈ stripped, sp.pfx = c.path := by
  have h := List.mem_filter.mp hc
  refine ⟨h.1, ?_⟩
  have h2 := h.2
  simp only [List.any_eq_true, decide_eq_true_eq] at h2
  exact h2

theorem addContexts_cons_skip (env : LoopEnv) (ctxs : List DirContext)
    (sp : StrippedPath) (rest : List StrippedPath)
    (h1 : (ctxs.any fun c => decide (c.path = sp.pfx)) = true) :
    addContexts env ctxs (sp :: rest) = addContexts env ctxs rest := by
  simp only [addContexts, h1, if_true]

theorem addContexts_cons_notFound (env : LoopEnv) (ctxs : List DirContext)
    (sp : StrippedPath) (rest : List StrippedPath) (e : IOErr)
    (h1 : (ctxs.any fun c => decide (c.path = sp.pfx)) = false)
    (h2 : env.openDir sp.pfx = Except.error e)
    (h3 : e.kind = ErrKind.notFound) :
    addContexts env ctxs (sp :: rest)
      = ((addContexts env ctxs rest).1,
         Effect.warnNotFound sp.pfx :: (addContexts env ctxs rest).2) := by
  simp only [addContexts, h1, h2, h3, Bool.false_eq_true, if_false, if_true]

theorem addContexts_cons_otherErr (env : LoopEnv) (ctxs : List DirContext)
    (sp : StrippedPath) (rest : List StrippedPath) (e : IOErr)
    (h1 : (ctxs.any fun c => decide (c.path = sp.pfx)) = false)
    (h2 : env.openDir sp.pfx = Except.error e)
    (h3 : ¬e.kind = ErrKind.notFound) :
    addContexts env ctxs (sp :: rest) = (Except.error e, []) := by
  simp only [addContexts, h1, h2, h3, Bool.false_eq_true, if_false]

theorem addContexts_cons_attachErr (env : LoopEnv) (ctxs : List DirContext)
    (sp : StrippedPath) (rest : List StrippedPath) (e : IOErr)
    (h1 : (ctxs.any fun c => decide (c.path = sp.pfx)) = false)
    (h2 : env.openDir sp.pfx = Except.ok ())
    (h3 : env.attach sp.pfx ctxs.length = Except.error e) :
    addContexts env ctxs (sp :: rest) = (Except.error e, []) := by
  simp only [addContexts, h1, h2, h3, Bool.false_eq_true, if_false]

theorem addContexts_cons_armErr (env : LoopEnv) (ctxs : List DirContext)
    (sp : StrippedPath) (rest : List StrippedPath) (e : IOErr)
    (h1 : (ctxs.any fun c => decide (c.path = sp.pfx)) = false)
    (h2 : env.openDir sp.pfx = Except.ok ())
    (h3 : env.attach sp.pfx ctxs.length = Except.ok ())
    (h4 : env.arm sp.pfx = Except.error e) :
    addContexts env ctxs (sp :: rest) = (Except.error e, []) := by
  simp only [addContexts, h1, h2, h3, h4, Bool.false_eq_true, if_false]

theorem addContexts_cons_open (env : LoopEnv) (ctxs : List DirContext)
    (sp : StrippedPath) (rest : List StrippedPath)
    (h1 : (ctxs.any fun c => decide (c.path = sp.pfx)) = false)
    (h2 : env.openDir sp.pfx = Except.ok ())
    (h3 : env.attach sp.pfx ctxs.length = Except.ok ())
    (h4 : env.arm sp.pfx = Except.ok ()) :
    addContexts env ctxs (sp :: rest)
      = addContexts env
          (ctxs ++ [{ path := sp.pfx, key := ctxs.length, bufferLen := 512 }]) rest := by
  simp only [addContexts, h1, h2, h3, h4, Bool.false_eq_true, if_false]

/-- Invariant of the addition phase: it only grows the context list; each
context of the result is either an input context or a freshly added one
whose key is below the final length, whose path backs some stripped path
and opened successfully; and every emitted effect is a not-found warning. -/
theorem addContexts_ok_inv (env : LoopEnv) :
    ∀ (ss : List StrippedPath) (ctxs ctxs2 : List DirContext) (effs : List Effect),
      addContexts env ctxs ss = (Except.ok ctxs2, effs) →
      ctxs.length ≤ ctxs2.length
      ∧ (∀ c ∈ ctxs2, c ∈ ctxs
          ∨ (c.key < ctxs2.length ∧ (∃ sp ∈ ss, c.path = sp.pfx)
             ∧ env.openDir c.path = Except.ok ()))
      ∧ (∀ e ∈ effs, ∃ p, e = Effect.warnNotFound p) := by
  intro ss
  induction ss with
  | nil =>
    intro ctxs ctxs2 effs h
    simp only [addContexts, Prod.mk.injEq, Except.ok.injEq] at h
    obtain ⟨rfl, rfl⟩ := h
    exact ⟨le_refl _, fun c hc => Or.inl hc, by simp⟩
  | cons sp rest ih =>
    intro ctxs ctxs2 effs h
    cases hany : ctxs.any fun c => decide (c.path = sp.pfx) with
    | true =>
      rw [addContexts_cons_skip env ctxs sp rest hany] at h
      obtain ⟨hlen, hmem, heff⟩ := ih ctxs ctxs2 effs h
      refine ⟨hlen, fun c hc => ?_, heff⟩
      rcases hmem c hc with hc' | ⟨hk, ⟨sp', hsp', hpath⟩, hopen⟩
      · exact Or.inl hc'
      · exact Or.inr ⟨hk, ⟨sp', List.mem_cons_of_mem _ hsp', hpath⟩, hopen⟩
    | false =>
      cases hopen : env.openDir sp.pfx with
      | error e =>
        by_cases hkind : e.kind = ErrKind.notFound
        · rw [addContexts_cons_notFound env ctxs sp rest e hany hopen hkind] at h
          cases hrec : addContexts env ctxs rest with
          | mk r1 r2 =>
            rw [hrec] at h
            simp only [Prod.mk.injEq] at h
            obtain ⟨h1, h2⟩ := h
            obtain ⟨hlen, hmem, heff⟩ := ih ctxs ctxs2 r2 (by rw [hrec, h1])
            refine ⟨hlen, fun c hc => ?_, ?_⟩
            · rcases hmem c hc with hc' | ⟨hk, ⟨sp', hsp', hpath⟩, ho⟩
              · exact Or.inl hc'
              · exact Or.inr ⟨hk, ⟨sp', List.mem_cons_of_mem _ hsp', hpath⟩, ho⟩
            · intro eff heffmem
              rw [← h2] at heffmem
              rcases List.mem_cons.mp heffmem with rfl | hmem'
              · exact ⟨sp.pfx, rfl⟩
              · exact heff eff hmem'
        · rw [addContexts_cons_otherErr env ctxs sp rest e hany hopen hkind] at h
          simp only [Prod.mk.injEq] at h
          exact absurd h.1 (by simp)
      | ok u =>
        cases u
        cases hatt : env.attach sp.pfx ctxs.length with
        | error e =>
          rw [addContexts_cons_attachErr env ctxs sp rest e hany hopen hatt] at h
          simp only [Prod.mk.injEq] at h
          exact absurd h.1 (by simp)
        | ok u =>
          cases u
          cases harm2 : env.arm sp.pfx with
          | error e =>
            rw [addContexts_cons_armErr env ctxs sp rest e hany hopen hatt harm2] at h
            simp only [Prod.mk.injEq] at h
            exact absurd h.1 (by simp)
          | ok u =>
            cases u
            rw [addContexts_cons_open env ctxs sp rest hany hopen hatt harm2] at h
            obtain ⟨hlen, hmem, heff⟩ := ih _ ctxs2 effs h
            rw [List.length_append, List.length_singleton] at hlen
            refine ⟨by omega, fun c hc => ?_, heff⟩
            rcases hmem c hc with hc' | ⟨hk, ⟨sp', hsp', hpath⟩, ho⟩
            · rcases List.mem_append.mp hc' with hc'' | hc''
              · exact Or.inl hc''
              · simp only [List.mem_singleton] at hc''
                subst hc''
                exact Or.inr ⟨by simpa using hlen, ⟨sp, List.mem_cons_self _ _, rfl⟩, hopen⟩
            · exact Or.inr ⟨hk, ⟨sp', List.mem_cons_of_mem _ hsp', hpath⟩, ho⟩

/-- Every effect the addition phase emits — on the success and on the
error path alike — is a not-found warning. -/
theorem addContexts_effects_warn (env : LoopEnv) :
    ∀ (ss : List StrippedPath) (ctxs : List DirContext),
      ∀ e ∈ (addContexts env ctxs ss).2, ∃ p, e = Effect.warnNotFound p := by
  intro ss
  induction ss with
  | nil => intro ctxs e he; simp [addContexts] at he
  | cons sp rest ih =>
    intro ctxs e he
    cases hany : ctxs.any fun c => decide (c.path = sp.pfx) with
    | true =>
      rw [addContexts_cons_skip env ctxs sp rest hany] at he
      exact ih ctxs e he
    | false =>
      cases hopen : env.openDir sp.pfx with
      | error e' =>
        by_cases hkind : e'.kind = ErrKind.notFound
        · rw [addContexts_cons_notFound env ctxs sp rest e' hany hopen hkind] at he
          rcases List.mem_cons.mp he with rfl | he'
          · exact ⟨sp.pfx, rfl⟩
          · exact ih ctxs e he'
        · rw [addContexts_cons_otherErr env ctxs sp rest e' hany hopen hkind] at he
          simp at he
      | ok u =>
        cases u
        cases hatt : env.attach sp.pfx ctxs.length with
        | error e' =>
          rw [addContexts_cons_attachErr env ctxs sp rest e' hany hopen hatt] at he
          simp at he
        | ok u =>
          cases u
          cases harm2 : env.arm sp.pfx with
          | error e' =>
            rw [addContexts_cons_armErr env ctxs sp rest e' hany hopen hatt harm2] at he
            simp at he
          | ok u =>
            cases u
            rw [addContexts_cons_open env ctxs sp rest hany hopen hatt harm2] at he
            exact ih _ e he

/-- An effect list of not-found warnings contains no other effect. -/
theorem count_eq_zero_of_warns (effs : List Effect) (x : Effect)
    (hwarn : ∀ e ∈ effs, ∃ p, e = Effect.warnNotFound p)
    (hx : ∀ p, x ≠ Effect.warnNotFound p) : effs.count x = 0 := by
  rw [List.count_eq_zero]
  intro hmem
  obtain ⟨p, hp⟩ := hwarn x hmem
  exact hx p hp

theorem doubleBufferAt_map_path :
    ∀ (l : List DirContext) (k : Nat),
      (doubleBufferAt l k).map DirContext.path = l.map DirContext.path := by
  intro l
  induction l with
  | nil => intro k; rfl
  | cons c rest ih =>
    intro k
    cases k with
    | zero => rfl
    | succ k' => simp [doubleBufferAt, ih k']

theorem doubleBufferAt_getD :
    ∀ (l : List DirContext) (k : Nat), k < l.length →
      ((doubleBufferAt l k).getD k default).bufferLen
        = 2 * ((l.getD k default).bufferLen) := by
  intro l
  induction l with
  | nil => intro k hk; simp at hk
  | cons c rest ih =>
    intro k hk
    cases k with
    | zero => rfl
    | succ k' =>
      simp only [doubleBufferAt, List.getD_cons_succ]
      exact ih k' (by simpa using hk)

/-- When every stripped path opens cleanly or with "not found" and the
attach/arm calls succeed, the addition phase succeeds, and each skipped
not-found path that had no context yet got its warning logged. -/
theorem addContexts_ok_exists (env : LoopEnv) :
    ∀ (ss : List StrippedPath) (ctxs : List DirContext),
      (∀ sp ∈ ss, openOkOrNotFound env sp.pfx = true) →
      (∀ sp ∈ ss, ∀ k, env.attach sp.pfx k = Except.ok ()) →
      (∀ sp ∈ ss, env.arm sp.pfx = Except.ok ()) →
      ∃ ctxs2 effs, addContexts env ctxs ss = (Except.ok ctxs2, effs)
        ∧ ∀ sp ∈ ss, isErrB (env.openDir sp.pfx) = true →
            sp.pfx ∉ ctxs.map DirContext.path → Effect.warnNotFound sp.pfx ∈ effs := by
  intro ss
  induction ss with
  | nil =>
    intro ctxs _ _ _
    exact ⟨ctxs, [], rfl, by simp⟩
  | cons sp rest ih =>
    intro ctxs h1 h2 h3
    have h1r := fun sp' hsp' => h1 sp' (List.mem_cons_of_mem _ hsp')
    have h2r := fun sp' hsp' => h2 sp' (List.mem_cons_of_mem _ hsp')
    have h3r := fun sp' hsp' => h3 sp' (List.mem_cons_of_mem _ hsp')
    cases hany : ctxs.any fun c => decide (c.path = sp.pfx) with
    | true =>
      obtain ⟨ctxs2, effs, heq, hwarn⟩ := ih ctxs h1r h2r h3r
      refine ⟨ctxs2, effs, by rw [addContexts_cons_skip env ctxs sp rest hany, heq], ?_⟩
      intro sp' hsp' herr hnotin
      rcases List.mem_cons.mp hsp' with rfl | hsp'
      · exfalso
        apply hnotin
        simp only [List.any_eq_true, decide_eq_true_eq] at hany
        obtain ⟨c, hc, hcp⟩ := hany
        exact List.mem_map.mpr ⟨c, hc, hcp⟩
      · exact hwarn sp' hsp' herr hnotin
    | false =>
      cases hopen : env.openDir sp.pfx with
      | error e =>
        have hkind : e.kind = ErrKind.notFound := by
          have := h1 sp (List.mem_cons_self _ _)
          simp only [openOkOrNotFound, hopen, decide_eq_true_eq] at this
          exact this
        obtain ⟨ctxs2, effs, heq, hwarn⟩ := ih ctxs h1r h2r h3r
        refine ⟨ctxs2, Effect.warnNotFound sp.pfx :: effs, ?_, ?_⟩
        · rw [addContexts_cons_notFound env ctxs sp rest e hany hopen hkind, heq]
        · intro sp' hsp' herr hnotin
          rcases List.mem_cons.mp hsp' with rfl | hsp'
          · exact List.mem_cons_self _ _
          · exact List.mem_cons_of_mem _ (hwarn sp' hsp' herr hnotin)
      | ok u =>
        cases u
        have hatt := h2 sp (List.mem_cons_self _ _) ctxs.length
        have harm2 := h3 sp (List.mem_cons_self _ _)
        obtain ⟨ctxs2, effs, heq, hwarn⟩ :=
          ih (ctxs ++ [{ path := sp.pfx, key := ctxs.length, bufferLen := 512 }]) h1r h2r h3r
        refine ⟨ctxs2, effs, ?_, ?_⟩
        · rw [addContexts_cons_open env ctxs sp rest hany hopen hatt harm2, heq]
        · intro sp' hsp' herr hnotin
          rcases List.mem_cons.mp hsp' with rfl | hsp'
          · simp [isErrB, hopen] at herr
          · apply hwarn sp' hsp' herr
            intro hmem
            rcases List.mem_map.mp hmem with ⟨c, hc, hcp⟩
            rcases List.mem_append.mp hc with hc' | hc'
            · exact hnotin (List.mem_map.mpr ⟨c, hc', hcp⟩)
            · simp only [List.mem_singleton] at hc'
              subst hc'
              simp only at hcp
              rw [← hcp] at herr
              simp [isErrB, hopen] at herr

/-- If a list starting with `b` decomposes as `l1 ++ a :: l2` with
`a ≠ b`, then `b` lands in `l1`. -/
theorem head_mem_decomp {α : Type} (rest l1 l2 : List α) (a b : α)
    (hne : a ≠ b) (hdec : b :: rest = l1 ++ a :: l2) : b ∈ l1 := by
  cases l1 with
  | nil =>
    simp only [List.nil_append, List.cons.injEq] at hdec
    exact absurd hdec.1.symm hne
  | cons x l1' =>
    simp only [List.cons_append, List.cons.injEq] at hdec
    rw [hdec.1]
    exact List.mem_cons_self _ _

/-! ## Claim C3 -/

/-- Claim C3: during reconciliation, a "not found" failure while opening
the directory of a prefix that needs a new context is demoted to a
warning and that prefix is skipped while reconciliation still succeeds
for the rest; any other open/attach/arm failure is returned as an error,
which sets `stop_monitor` in the loop's `SetPaths` arm (with an error
log) and fails `spawn` during the initial reconciliation. -/
theorem c3_reconciliation_error_policy
    (env env2 env3 : LoopEnv) (stripped : List StrippedPath)
    (ctxs : List DirContext) (s : LoopState) (ps qs : List Path) (e2 e3 : IOErr)
    (h1 : ∀ sp ∈ stripped, openOkOrNotFound env sp.pfx = true)
    (h2 : ∀ sp ∈ stripped, ∀ k, env.attach sp.pfx k = Except.ok ())
    (h3 : ∀ sp ∈ stripped, env.arm sp.pfx = Except.ok ())
    (hupd2 : (updateDirectoryContexts env2 (strippedOf env2 ps) s.dirContexts).1
      = Except.error e2)
    (hupd3 : (updateDirectoryContexts env3 (strippedOf env3 qs) []).1
      = Except.error e3) :
    (exceptIsOk (updateDirectoryContexts env stripped ctxs).1 = true
      ∧ ∀ sp ∈ stripped, isErrB (env.openDir sp.pfx) = true →
          sp.pfx ∉ (keepContexts stripped ctxs).map DirContext.path →
            Effect.warnNotFound sp.pfx ∈ (updateDirectoryContexts env stripped ctxs).2
            ∧ sp.pfx ∉ (exceptOkD (updateDirectoryContexts env stripped ctxs).1 []).map
                DirContext.path)
    ∧ (drainCommands env2 s [PathMonitorCommand.setPaths ps]).2.2 = true
    ∧ Effect.logError ∈ (drainCommands env2 s [PathMonitorCommand.setPaths ps]).2.1
    ∧ (spawnInit env3 qs).1 = Except.error e3 := by
  refine ⟨?_, ?_, ?_, ?_⟩
  · obtain ⟨ctxs2, effs, heq, hwarn⟩ :=
      addContexts_ok_exists env stripped (keepContexts stripped ctxs) h1 h2 h3
    have hu : updateDirectoryContexts env stripped ctxs = (Except.ok ctxs2, effs) := heq
    rw [hu]
    refine ⟨rfl, ?_⟩
    intro sp hsp herr hnotin
    refine ⟨hwarn sp hsp herr hnotin, ?_⟩
    intro hmem
    simp only [exceptOkD] at hmem
    rcases List.mem_map.mp hmem with ⟨c, hc, hcp⟩
    obtain ⟨_, hmem2, _⟩ := addContexts_ok_inv env stripped _ ctxs2 effs heq
    rcases hmem2 c hc with hc' | ⟨_, _, hopen⟩
    · exact hnotin (List.mem_map.mpr ⟨c, hc', hcp⟩)
    · rw [hcp] at hopen
      simp [isErrB, hopen] at herr
  · cases hu : updateDirectoryContexts env2 (strippedOf env2 ps) s.dirContexts with
    | mk u1 u2 =>
      rw [hu] at hupd2
      simp only at hupd2
      subst hupd2
      simp [drainCommands, applySetPaths, hu]
  · cases hu : updateDirectoryContexts env2 (strippedOf env2 ps) s.dirContexts with
    | mk u1 u2 =>
      rw [hu] at hupd2
      simp only at hupd2
      subst hupd2
      simp [drainCommands, applySetPaths, hu]
  · cases hu : updateDirectoryContexts env3 (strippedOf env3 qs) [] with
    | mk u1 u2 =>
      rw [hu] at hupd3
      simp only at hupd3
      subst hupd3
      simp [spawnInit, hu]

def c3SpA : StrippedPath := ⟨[Component.vol "A:", Component.root], ['x']⟩

def c3SpB : StrippedPath := ⟨[Component.vol "B:", Component.root], ['y']⟩

def c3Env : LoopEnv :=
  { openDir := fun p =>
      if p = [Component.vol "A:", Component.root] then Except.error ⟨ErrKind.notFound⟩
      else Except.ok ()
    attach := fun _ _ => Except.ok ()
    arm := fun _ => Except.ok ()
    resolveMultiple := fun _ => [] }

def c3P : Path := [Component.vol "C:", Component.root, Component.norm "a"]

def c3EnvBad : LoopEnv :=
  { openDir := fun _ => Except.error ⟨ErrKind.other⟩
    attach := fun _ _ => Except.ok ()
    arm := fun _ => Except.ok ()
    resolveMultiple := fun _ => [c3P] }

def c3S : LoopState := ⟨[], [], [], []⟩

theorem c3_reconciliation_error_policy_witness :
    exceptIsOk (updateDirectoryContexts c3Env [c3SpA, c3SpB] []).1 = true
    ∧ Effect.warnNotFound c3SpA.pfx ∈ (updateDirectoryContexts c3Env [c3SpA, c3SpB] []).2
    ∧ c3SpA.pfx ∉
        (exceptOkD (updateDirectoryContexts c3Env [c3SpA, c3SpB] []).1 []).map
          DirContext.path
    ∧ (drainCommands c3EnvBad c3S [PathMonitorCommand.setPaths [c3P]]).2.2 = true
    ∧ Effect.logError ∈ (drainCommands c3EnvBad c3S [PathMonitorCommand.setPaths [c3P]]).2.1
    ∧ (spawnInit c3EnvBad [c3P]).1 = Except.error ⟨ErrKind.other⟩ := by
  have h := c3_reconciliation_error_policy c3Env c3EnvBad c3EnvBad [c3SpA, c3SpB]
    [] c3S [c3P] [c3P] ⟨ErrKind.other⟩ ⟨ErrKind.other⟩
    (by decide) (fun _ _ _ => rfl) (fun _ _ => rfl) (by decide) (by decide)
  have hA := h.1.2 c3SpA (by decide) (by decide) (by decide)
  exact ⟨h.1.1, hA.1, hA.2, h.2.1, h.2.2.1, h.2.2.2⟩

/-! ## Claim C8 -/

/-- Claim C8: a key assigned to a context during reconciliation is below
the final number of active contexts (new contexts are attached under the
list length at push time, so each freshly added context's key stays below
the resulting count; surviving contexts keep their old keys); the
sentinel `usize::MAX` key is a pure no-op wake; and a delivered key that
is out of range for the current context count is ignored with a debug
log, never an error or a loop exit. -/
theorem c8_completion_keys (env env2 env3 : LoopEnv)
    (stripped : List StrippedPath) (ctxs ctxs2 : List DirContext) (effs : List Effect)
    (s2 s3 : LoopState) (b b3 : Nat) (ov ov3 : Bool)
    (recs recs3 : List (List Char)) (k : Nat)
    (hok : updateDirectoryContexts env stripped ctxs = (Except.ok ctxs2, effs))
    (hk : s3.dirContexts.length ≤ k)
    (hne : k ≠ PATH_MONITOR_COMPLETION_KEY_IGNORE) :
    (∀ c ∈ ctxs2, c ∈ keepContexts stripped ctxs ∨ c.key < ctxs2.length)
    ∧ handleCompletion env2 s2 ⟨b, PATH_MONITOR_COMPLETION_KEY_IGNORE, ov, recs⟩
        = StepResult.next s2 []
    ∧ handleCompletion env3 s3 ⟨b3, k, ov3, recs3⟩ = StepResult.next s3 [Effect.logDebug] := by
  refine ⟨?_, ?_, ?_⟩
  · intro c hc
    obtain ⟨_, hmem, _⟩ := addContexts_ok_inv env stripped _ ctxs2 effs hok
    rcases hmem c hc with hc' | ⟨hkey, _, _⟩
    · exact Or.inl hc'
    · exact Or.inr hkey
  · simp [handleCompletion]
  · simp [handleCompletion, hne, hk]

def c8Sp : StrippedPath := ⟨[Component.vol "B:", Component.root], ['y']⟩

def c8Env : LoopEnv :=
  { openDir := fun _ => Except.ok ()
    attach := fun _ _ => Except.ok ()
    arm := fun _ => Except.ok ()
    resolveMultiple := fun _ => [] }

def c8S : LoopState := ⟨[], [], [], []⟩

def c8Ctx : DirContext := ⟨[Component.vol "B:", Component.root], 0, 512⟩

theorem c8_completion_keys_witness :
    (c8Ctx ∈ keepContexts [c8Sp] [] ∨ c8Ctx.key < [c8Ctx].length)
    ∧ handleCompletion c8Env c8S ⟨1, PATH_MONITOR_COMPLETION_KEY_IGNORE, false, []⟩
        = StepResult.next c8S []
    ∧ handleCompletion c8Env c8S ⟨1, 0, false, []⟩ = StepResult.next c8S [Effect.logDebug] := by
  have h := c8_completion_keys c8Env c8Env c8Env [c8Sp] [] [c8Ctx] [] c8S c8S
    1 1 false false [] [] 0 (by decide) (by decide) (by decide)
  exact ⟨h.1 c8Ctx (by decide), h.2.1, h.2.2⟩

/-! ## Claim C6 -/

def c6P : Path := [Component.vol "C:", Component.root, Component.norm "A",
  Component.norm "B", Component.norm "file.txt"]

/-- Counterexample to claim C6: for the resolved path `C:\A\B\file.txt`,
`strip_path` joins only the first two components — the volume prefix and
the root — so the directory opened for watching is `C:\`, not the
volume-root-relative top-level directory `C:\A` the claim names. -/
theorem c6_counterexample :
    stripPath c6P = Except.ok
      { pfx := [Component.vol "C:", Component.root],
        tail := encodeWide [Component.norm "A", Component.norm "B",
          Component.norm "file.txt"] }
    ∧ ([Component.vol "C:", Component.root] : Path)
        ≠ [Component.vol "C:", Component.root, Component.norm "A"] := by
  exact ⟨rfl, by decide⟩

/-- Claim C6 (amended): `strip_path` splits a ResolvedPath with at least
two components into a prefix consisting of its first two components (the
volume prefix joined with the root — the directory actually opened for
watching) and a tail that encodes the remaining components for name
comparison; and every context reconciliation keeps or creates watches
only on such stripped-path prefixes. -/
theorem c6_amended_strip (p : Path) (env : LoopEnv) (stripped : List StrippedPath)
    (ctxs ctxs2 : List DirContext) (effs : List Effect)
    (hlen : 2 ≤ p.length)
    (hok : updateDirectoryContexts env stripped ctxs = (Except.ok ctxs2, effs)) :
    stripPath p = Except.ok { pfx := p.take 2, tail := encodeWide (p.drop 2) }
    ∧ ∀ c ∈ ctxs2, ∃ sp ∈ stripped, c.path = sp.pfx := by
  constructor
  · match p, hlen with
    | c0 :: c1 :: rest, _ => rfl
  · intro c hc
    obtain ⟨_, hmem, _⟩ := addContexts_ok_inv env stripped _ ctxs2 effs hok
    rcases hmem c hc with hc' | ⟨_, hsp, _⟩
    · obtain ⟨_, sp, hsp, hpfx⟩ := keepContexts_mem stripped ctxs c hc'
      exact ⟨sp, hsp, hpfx.symm⟩
    · exact hsp

def c6Sp : StrippedPath := ⟨[Component.vol "D:", Component.root], ['z']⟩

def c6Env : LoopEnv :=
  { openDir := fun _ => Except.ok ()
    attach := fun _ _ => Except.ok ()
    arm := fun _ => Except.ok ()
    resolveMultiple := fun _ => [] }

def c6Ctx : DirContext := ⟨[Component.vol "D:", Component.root], 0, 512⟩

theorem c6_amended_strip_witness :
    stripPath c6P = Except.ok
      { pfx := c6P.take 2, tail := encodeWide (c6P.drop 2) }
    ∧ c6Ctx.path = c6Sp.pfx := by
  have h := c6_amended_strip c6P c6Env [c6Sp] [] [c6Ctx] [] (by decide) (by decide)
  obtain ⟨sp, hsp, hpath⟩ := h.2 c6Ctx (by decide)
  have hsp' : sp = c6Sp := by
    rcases List.mem_singleton.mp hsp with rfl
    rfl
  exact ⟨h.1, hsp' ▸ hpath⟩

/-! ## Helper lemmas: the command drain -/

theorem updateDirectoryContexts_effects_warn (env : LoopEnv)
    (stripped : List StrippedPath) (ctxs : List DirContext) :
    ∀ e ∈ (updateDirectoryContexts env stripped ctxs).2, ∃ p, e = Effect.warnNotFound p :=
  addContexts_effects_warn env stripped (keepContexts stripped ctxs)

theorem applySetPaths_spec (env : LoopEnv) (s : LoopState) (ps : List Path) (x : Effect)
    (hx1 : x ≠ Effect.reconcile) (hx2 : x ≠ Effect.logError)
    (hx3 : ∀ p, x ≠ Effect.warnNotFound p) :
    (applySetPaths env s ps).1.originalPaths = ps
    ∧ ((applySetPaths env s ps).2.1).count x = 0 := by
  have hw := updateDirectoryContexts_effects_warn env (strippedOf env ps) s.dirContexts
  have hcount : ((updateDirectoryContexts env (strippedOf env ps) s.dirContexts).2).count x
      = 0 := count_eq_zero_of_warns _ x hw hx3
  cases hu : updateDirectoryContexts env (strippedOf env ps) s.dirContexts with
  | mk u1 u2 =>
    rw [hu] at hcount
    simp only at hcount
    cases u1 with
    | ok ctxs2 =>
      simp [applySetPaths, hu, List.count_cons, List.count_append, hcount, hx1, hx2]
    | error e =>
      simp [applySetPaths, hu, List.count_cons, List.count_append, hcount, hx1, hx2]

theorem drainCommands_count (env : LoopEnv) (x : Effect)
    (hx1 : x ≠ Effect.reconcile) (hx2 : x ≠ Effect.logError)
    (hx3 : ∀ p, x ≠ Effect.warnNotFound p) :
    ∀ (queue : List PathMonitorCommand) (s : LoopState),
      ((drainCommands env s queue).2.1).count x = 0 := by
  intro queue
  induction queue with
  | nil => intro s; simp [drainCommands]
  | cons cmd rest ih =>
    intro s
    cases cmd with
    | shutdown => simp [drainCommands]
    | setPaths ps =>
      have hc := (applySetPaths_spec env s ps x hx1 hx2 hx3).2
      cases hstop : (applySetPaths env s ps).2.2 with
      | true => simpa [drainCommands, hstop] using hc
      | false =>
        simp only [drainCommands, hstop, Bool.false_eq_true, if_false,
          List.count_append]
        rw [hc, ih]

theorem spawnInit_count (env : LoopEnv) (ps : List Path) (x : Effect)
    (hx3 : ∀ p, x ≠ Effect.warnNotFound p) :
    ((spawnInit env ps).2).count x = 0 := by
  have hw := updateDirectoryContexts_effects_warn env (strippedOf env ps) []
  have hcount : ((updateDirectoryContexts env (strippedOf env ps) []).2).count x = 0 :=
    count_eq_zero_of_warns _ x hw hx3
  cases hu : updateDirectoryContexts env (strippedOf env ps) [] with
  | mk u1 u2 =>
    rw [hu] at hcount
    simp only at hcount
    cases u1 with
    | ok ctxs2 => simpa [spawnInit, hu] using hcount
    | error e => simpa [spawnInit, hu] using hcount

/-! ## Claim C9 -/

/-- Claim C9: processing commands never emits an event on the
notification channel — the whole command drain, reconciliation included,
and the initial `spawn` resolution contribute zero `notify` effects;
only the directory-change branch of the loop sends notifications. -/
theorem c9_set_paths_never_notifies (env : LoopEnv) (s : LoopState)
    (queue : List PathMonitorCommand) (ps : List Path) :
    ((drainCommands env s queue).2.1).count Effect.notify = 0
    ∧ ((spawnInit env ps).2).count Effect.notify = 0 :=
  ⟨drainCommands_count env Effect.notify (by simp) (by simp) (fun p => by simp) queue s,
   spawnInit_count env ps Effect.notify (fun p => by simp)⟩

/-! ## Claim C5 -/

def c5Env : LoopEnv :=
  { openDir := fun _ => Except.error ⟨ErrKind.notFound⟩
    attach := fun _ _ => Except.ok ()
    arm := fun _ => Except.ok ()
    resolveMultiple := fun l => l }

def c5P : Path := [Component.vol "C:", Component.root, Component.norm "a"]

def c5S : LoopState := ⟨[], [], [], []⟩

/-- Counterexample to claim C5: with a `SetPaths` queued ahead of a
`Shutdown`, the drain takes the commands in FIFO order, so the `SetPaths`
is fully applied — original, resolved and stripped path sets are replaced
— before the `Shutdown` is honored; the loop does terminate in the same
drain, but not "without applying the new watch set". -/
theorem c5_counterexample :
    (drainCommands c5Env c5S
        [PathMonitorCommand.setPaths [c5P], PathMonitorCommand.shutdown]).2.2 = true
    ∧ (drainCommands c5Env c5S
        [PathMonitorCommand.setPaths [c5P], PathMonitorCommand.shutdown]).1.originalPaths
        = [c5P]
    ∧ (drainCommands c5Env c5S
        [PathMonitorCommand.setPaths [c5P], PathMonitorCommand.shutdown]).1.strippedPaths
        ≠ c5S.strippedPaths := by
  exact ⟨by decide, by decide, by decide⟩

/-- Claim C5 (amended): when a `SetPaths` command is queued ahead of a
`Shutdown`, the loop first applies the `SetPaths` (replacing the watched
path list) and then honors the `Shutdown` within the same drain: it
terminates without ever blocking on the multiplexer again, and commands
queued after the `Shutdown` are never processed. -/
theorem c5_amended_shutdown_after_set_paths (env : LoopEnv) (s : LoopState)
    (ps : List Path) (rest : List PathMonitorCommand) (w : WaitInput) :
    (loopIter env s
        (PathMonitorCommand.setPaths ps :: PathMonitorCommand.shutdown :: rest) w).isHalt
      = true
    ∧ LoopState.originalPaths (StepResult.state (loopIter env s
        (PathMonitorCommand.setPaths ps :: PathMonitorCommand.shutdown :: rest) w)) = ps
    ∧ List.count Effect.waited (StepResult.effects (loopIter env s
        (PathMonitorCommand.setPaths ps :: PathMonitorCommand.shutdown :: rest) w)) = 0 := by
  have horig := (applySetPaths_spec env s ps Effect.waited (by simp) (by simp)
    (fun p => by simp)).1
  have hcount := (applySetPaths_spec env s ps Effect.waited (by simp) (by simp)
    (fun p => by simp)).2
  cases hstop : (applySetPaths env s ps).2.2 with
  | true =>
    have hd : drainCommands env s
        (PathMonitorCommand.setPaths ps :: PathMonitorCommand.shutdown :: rest)
        = ((applySetPaths env s ps).1, (applySetPaths env s ps).2.1, true) := by
      simp [drainCommands, hstop]
    simp [loopIter, hd, StepResult.isHalt, StepResult.state, StepResult.effects,
      horig, hcount]
  | false =>
    have hd : drainCommands env s
        (PathMonitorCommand.setPaths ps :: PathMonitorCommand.shutdown :: rest)
        = ((applySetPaths env s ps).1, (applySetPaths env s ps).2.1 ++ [], true) := by
      simp [drainCommands, hstop]
    simp [loopIter, hd, StepResult.isHalt, StepResult.state, StepResult.effects,
      horig, hcount]

/-! ## Helper lemmas: branches of the completion handler -/

theorem handleCompletion_zero_armErr (env : LoopEnv) (s : LoopState) (c : Completion)
    (e : IOErr)
    (hne : c.completionKey ≠ PATH_MONITOR_COMPLETION_KEY_IGNORE)
    (hk : c.completionKey < s.dirContexts.length)
    (hb0 : c.bytesReturned = 0)
    (harm : env.arm ((ctxAt s c.completionKey).path)
      = Except.error e) :
    handleCompletion env s c
      = StepResult.halt
          { s with dirContexts := doubleBufferAt s.dirContexts c.completionKey }
          [Effect.logDebug, Effect.logError] := by
  simp [handleCompletion, hne, Nat.not_le.mpr hk, hb0, harm]

theorem handleCompletion_nonzero_armErr (env : LoopEnv) (s : LoopState) (c : Completion)
    (e : IOErr)
    (hne : c.completionKey ≠ PATH_MONITOR_COMPLETION_KEY_IGNORE)
    (hk : c.completionKey < s.dirContexts.length)
    (hb : c.bytesReturned ≠ 0)
    (harm : env.arm ((ctxAt s c.completionKey).path)
      = Except.error e) :
    handleCompletion env s c = StepResult.halt s [Effect.logError] := by
  simp [handleCompletion, hne, Nat.not_le.mpr hk, hb, harm]

theorem handleCompletion_zero_armOk (env : LoopEnv) (s : LoopState) (c : Completion)
    (hne : c.completionKey ≠ PATH_MONITOR_COMPLETION_KEY_IGNORE)
    (hk : c.completionKey < s.dirContexts.length)
    (hb0 : c.bytesReturned = 0)
    (harm : env.arm ((ctxAt s c.completionKey).path)
      = Except.ok ()) :
    handleCompletion env s c
      = StepResult.next
          { s with dirContexts := doubleBufferAt s.dirContexts c.completionKey }
          [Effect.logDebug, Effect.rearmed c.completionKey] := by
  simp [handleCompletion, hne, Nat.not_le.mpr hk, hb0, harm]

theorem handleCompletion_nullOverlapped (env : LoopEnv) (s : LoopState) (c : Completion)
    (hne : c.completionKey ≠ PATH_MONITOR_COMPLETION_KEY_IGNORE)
    (hk : c.completionKey < s.dirContexts.length)
    (hb : c.bytesReturned ≠ 0)
    (ho : c.overlappedIsNull = true)
    (harm : env.arm ((ctxAt s c.completionKey).path)
      = Except.ok ()) :
    handleCompletion env s c = StepResult.next s [Effect.rearmed c.completionKey] := by
  simp [handleCompletion, hne, Nat.not_le.mpr hk, hb, ho, harm]

theorem handleCompletion_irrelevant (env : LoopEnv) (s : LoopState) (c : Completion)
    (hne : c.completionKey ≠ PATH_MONITOR_COMPLETION_KEY_IGNORE)
    (hk : c.completionKey < s.dirContexts.length)
    (hb : c.bytesReturned ≠ 0)
    (ho : c.overlappedIsNull = false)
    (harm : env.arm ((ctxAt s c.completionKey).path)
      = Except.ok ())
    (hrel : relevantBatch s.strippedPaths
      ((ctxAt s c.completionKey).path) c.records = false) :
    handleCompletion env s c
      = StepResult.next s
          [Effect.rearmed c.completionKey, Effect.parsedBatch c.completionKey] := by
  simp [handleCompletion, hne, Nat.not_le.mpr hk, hb, ho, harm, hrel]

theorem handleCompletion_relevant_same (env : LoopEnv) (s : LoopState) (c : Completion)
    (hne : c.completionKey ≠ PATH_MONITOR_COMPLETION_KEY_IGNORE)
    (hk : c.completionKey < s.dirContexts.length)
    (hb : c.bytesReturned ≠ 0)
    (ho : c.overlappedIsNull = false)
    (harm : env.arm ((ctxAt s c.completionKey).path)
      = Except.ok ())
    (hrel : relevantBatch s.strippedPaths
      ((ctxAt s c.completionKey).path) c.records = true)
    (hsame : (env.resolveMultiple s.originalPaths).toFinset = s.resolvedPaths.toFinset) :
    handleCompletion env s c
      = StepResult.next s
          [Effect.rearmed c.completionKey, Effect.parsedBatch c.completionKey] := by
  simp [handleCompletion, hne, Nat.not_le.mpr hk, hb, ho, harm, hrel, hsame]

theorem handleCompletion_changed_ok (env : LoopEnv) (s : LoopState) (c : Completion)
    (ctxs2 : List DirContext) (effsU : List Effect)
    (hne : c.completionKey ≠ PATH_MONITOR_COMPLETION_KEY_IGNORE)
    (hk : c.completionKey < s.dirContexts.length)
    (hb : c.bytesReturned ≠ 0)
    (ho : c.overlappedIsNull = false)
    (harm : env.arm ((ctxAt s c.completionKey).path)
      = Except.ok ())
    (hrel : relevantBatch s.strippedPaths
      ((ctxAt s c.completionKey).path) c.records = true)
    (hdiff : (env.resolveMultiple s.originalPaths).toFinset ≠ s.resolvedPaths.toFinset)
    (hu : updateDirectoryContexts env (strippedOf env s.originalPaths) s.dirContexts
      = (Except.ok ctxs2, effsU)) :
    handleCompletion env s c
      = StepResult.next
          { s with resolvedPaths := env.resolveMultiple s.originalPaths,
                   strippedPaths := strippedOf env s.originalPaths,
                   dirContexts := ctxs2 }
          (Effect.rearmed c.completionKey :: Effect.parsedBatch c.completionKey ::
            Effect.reconcile :: (effsU ++ [Effect.notify])) := by
  simp [handleCompletion, hne, Nat.not_le.mpr hk, hb, ho, harm, hrel, hdiff, hu]

theorem handleCompletion_changed_err (env : LoopEnv) (s : LoopState) (c : Completion)
    (e : IOErr) (effsU : List Effect)
    (hne : c.completionKey ≠ PATH_MONITOR_COMPLETION_KEY_IGNORE)
    (hk : c.completionKey < s.dirContexts.length)
    (hb : c.bytesReturned ≠ 0)
    (ho : c.overlappedIsNull = false)
    (harm : env.arm ((ctxAt s c.completionKey).path)
      = Except.ok ())
    (hrel : relevantBatch s.strippedPaths
      ((ctxAt s c.completionKey).path) c.records = true)
    (hdiff : (env.resolveMultiple s.originalPaths).toFinset ≠ s.resolvedPaths.toFinset)
    (hu : updateDirectoryContexts env (strippedOf env s.originalPaths) s.dirContexts
      = (Except.error e, effsU)) :
    handleCompletion env s c
      = StepResult.halt
          { s with resolvedPaths := env.resolveMultiple s.originalPaths,
                   strippedPaths := strippedOf env s.originalPaths }
          (Effect.rearmed c.completionKey :: Effect.parsedBatch c.completionKey ::
            Effect.reconcile :: (effsU ++ [Effect.logError])) := by
  simp [handleCompletion, hne, Nat.not_le.mpr hk, hb, ho, harm, hrel, hdiff, hu]

/-! ## Claim C4 -/

/-- Claim C4: for a completion delivered with an in-range key, a
zero-byte delivery doubles the matching context's receive buffer, keeps
every context in the active watch set (only that buffer length changes)
and parses no batch at all; and whenever a batch is parsed, the rearm of
that context came strictly before it in the step's action sequence. -/
theorem c4_zero_byte_and_rearm_order (env : LoopEnv) (s : LoopState) (c : Completion)
    (hne : c.completionKey ≠ PATH_MONITOR_COMPLETION_KEY_IGNORE)
    (hk : c.completionKey < s.dirContexts.length) :
    (c.bytesReturned = 0 →
      (handleCompletion env s c).state.dirContexts
          = doubleBufferAt s.dirContexts c.completionKey
      ∧ ((handleCompletion env s c).state.dirContexts).map DirContext.path
          = s.dirContexts.map DirContext.path
      ∧ (ctxAt (handleCompletion env s c).state c.completionKey).bufferLen
          = 2 * (ctxAt s c.completionKey).bufferLen
      ∧ ((handleCompletion env s c).effects).count
          (Effect.parsedBatch c.completionKey) = 0)
    ∧ ∀ l1 l2, (handleCompletion env s c).effects
          = l1 ++ Effect.parsedBatch c.completionKey :: l2 →
        Effect.rearmed c.completionKey ∈ l1 := by
  constructor
  · intro hb0
    have hdouble : ∀ s' : LoopState,
        s'.dirContexts = doubleBufferAt s.dirContexts c.completionKey →
        (ctxAt s' c.completionKey).bufferLen = 2 * (ctxAt s c.completionKey).bufferLen := by
      intro s' hs'
      show (s'.dirContexts.getD c.completionKey default).bufferLen = _
      rw [hs']
      exact doubleBufferAt_getD s.dirContexts c.completionKey hk
    cases harm : env.arm ((ctxAt s c.completionKey).path) with
    | error e =>
      rw [handleCompletion_zero_armErr env s c e hne hk hb0 harm]
      exact ⟨rfl, doubleBufferAt_map_path _ _, hdouble _ rfl, by simp [StepResult.effects]⟩
    | ok u =>
      cases u
      rw [handleCompletion_zero_armOk env s c hne hk hb0 harm]
      exact ⟨rfl, doubleBufferAt_map_path _ _, hdouble _ rfl, by simp [StepResult.effects]⟩
  · intro l1 l2 hdec
    by_cases hb0 : c.bytesReturned = 0
    · cases harm : env.arm ((ctxAt s c.completionKey).path) with
      | error e =>
        rw [handleCompletion_zero_armErr env s c e hne hk hb0 harm] at hdec
        simp only [StepResult.effects] at hdec
        have hmem : Effect.parsedBatch c.completionKey
            ∈ ([Effect.logDebug, Effect.logError] : List Effect) := by
          rw [hdec]; simp
        simp at hmem
      | ok u =>
        cases u
        rw [handleCompletion_zero_armOk env s c hne hk hb0 harm] at hdec
        simp only [StepResult.effects] at hdec
        have hmem : Effect.parsedBatch c.completionKey
            ∈ ([Effect.logDebug, Effect.rearmed c.completionKey] : List Effect) := by
          rw [hdec]; simp
        simp at hmem
    · cases harm : env.arm ((ctxAt s c.completionKey).path) with
      | error e =>
        rw [handleCompletion_nonzero_armErr env s c e hne hk hb0 harm] at hdec
        simp only [StepResult.effects] at hdec
        have hmem : Effect.parsedBatch c.completionKey
            ∈ ([Effect.logError] : List Effect) := by
          rw [hdec]; simp
        simp at hmem
      | ok u =>
        cases u
        cases ho : c.overlappedIsNull with
        | true =>
          rw [handleCompletion_nullOverlapped env s c hne hk hb0 ho harm] at hdec
          simp only [StepResult.effects] at hdec
          have hmem : Effect.parsedBatch c.completionKey
              ∈ ([Effect.rearmed c.completionKey] : List Effect) := by
            rw [hdec]; simp
          simp at hmem
        | false =>
          cases hrel : relevantBatch s.strippedPaths ((ctxAt s c.completionKey).path)
              c.records with
          | false =>
            rw [handleCompletion_irrelevant env s c hne hk hb0 ho harm hrel] at hdec
            simp only [StepResult.effects] at hdec
            exact head_mem_decomp _ l1 l2 _ _ (by simp) hdec
          | true =>
            by_cases hsame : (env.resolveMultiple s.originalPaths).toFinset
                = s.resolvedPaths.toFinset
            · rw [handleCompletion_relevant_same env s c hne hk hb0 ho harm hrel hsame]
                at hdec
              simp only [StepResult.effects] at hdec
              exact head_mem_decomp _ l1 l2 _ _ (by simp) hdec
            · cases hu : updateDirectoryContexts env (strippedOf env s.originalPaths)
                  s.dirContexts with
              | mk u1 u2 =>
                cases u1 with
                | ok ctxs2 =>
                  rw [handleCompletion_changed_ok env s c ctxs2 u2 hne hk hb0 ho harm
                    hrel hsame hu] at hdec
                  simp only [StepResult.effects] at hdec
                  exact head_mem_decomp _ l1 l2 _ _ (by simp) hdec
                | error e =>
                  rw [handleCompletion_changed_err env s c e u2 hne hk hb0 ho harm
                    hrel hsame hu] at hdec
                  simp only [StepResult.effects] at hdec
                  exact head_mem_decomp _ l1 l2 _ _ (by simp) hdec

def c4Env : LoopEnv :=
  { openDir := fun _ => Except.ok ()
    attach := fun _ _ => Except.ok ()
    arm := fun _ => Except.ok ()
    resolveMultiple := fun _ => [] }

def c4S : LoopState :=
  ⟨[], [], [], [⟨[Component.vol "C:", Component.root], 0, 512⟩]⟩

def c4C : Completion := ⟨0, 0, false, []⟩

theorem c4_zero_byte_and_rearm_order_witness :
    (handleCompletion c4Env c4S c4C).state.dirContexts = doubleBufferAt c4S.dirContexts 0
    ∧ ((handleCompletion c4Env c4S c4C).state.dirContexts).map DirContext.path
        = c4S.dirContexts.map DirContext.path
    ∧ (ctxAt (handleCompletion c4Env c4S c4C).state 0).bufferLen
        = 2 * (ctxAt c4S 0).bufferLen
    ∧ ((handleCompletion c4Env c4S c4C).effects).count (Effect.parsedBatch 0) = 0 :=
  (c4_zero_byte_and_rearm_order c4Env c4S c4C (by decide) (by decide)).1 rfl

/-! ## Claim C1 -/

/-- Claim C1: after a relevant directory change event the resolved set is
recomputed from the current original paths; when the recomputed set
equals the previous one (as hash sets) the step ends with no
notification and no reconciliation — the state is unchanged and the
effects are exactly the rearm and the parse; when it differs and the
reconciliation succeeds, exactly one unit event is emitted on the
notification channel. -/
theorem c1_relevant_event_dichotomy (env : LoopEnv) (s : LoopState) (c : Completion)
    (hne : c.completionKey ≠ PATH_MONITOR_COMPLETION_KEY_IGNORE)
    (hk : c.completionKey < s.dirContexts.length)
    (hb : c.bytesReturned ≠ 0)
    (ho : c.overlappedIsNull = false)
    (harm : env.arm ((ctxAt s c.completionKey).path) = Except.ok ())
    (hrel : relevantBatch s.strippedPaths ((ctxAt s c.completionKey).path) c.records
      = true) :
    ((env.resolveMultiple s.originalPaths).toFinset = s.resolvedPaths.toFinset →
       handleCompletion env s c = StepResult.next s
         [Effect.rearmed c.completionKey, Effect.parsedBatch c.completionKey])
    ∧ ((env.resolveMultiple s.originalPaths).toFinset ≠ s.resolvedPaths.toFinset →
        ∀ ctxs2 effsU,
          updateDirectoryContexts env (strippedOf env s.originalPaths) s.dirContexts
            = (Except.ok ctxs2, effsU) →
          ((handleCompletion env s c).effects).count Effect.notify = 1
          ∧ Effect.reconcile ∈ (handleCompletion env s c).effects) := by
  constructor
  · intro hsame
    exact handleCompletion_relevant_same env s c hne hk hb ho harm hrel hsame
  · intro hdiff ctxs2 effsU hu
    have hwarn := updateDirectoryContexts_effects_warn env (strippedOf env s.originalPaths)
      s.dirContexts
    rw [hu] at hwarn
    simp only at hwarn
    have hcount : effsU.count Effect.notify = 0 :=
      count_eq_zero_of_warns effsU Effect.notify hwarn (fun p => by simp)
    rw [handleCompletion_changed_ok env s c ctxs2 effsU hne hk hb ho harm hrel hdiff hu]
    constructor
    · simp [StepResult.effects, List.count_cons, List.count_append, hcount]
    · simp [StepResult.effects]

def c1Env : LoopEnv :=
  { openDir := fun _ => Except.ok ()
    attach := fun _ _ => Except.ok ()
    arm := fun _ => Except.ok ()
    resolveMultiple := fun _ => [] }

def c1S : LoopState :=
  ⟨[], [], [⟨[Component.vol "C:", Component.root], ['a']⟩],
   [⟨[Component.vol "C:", Component.root], 0, 512⟩]⟩

def c1C : Completion := ⟨1, 0, false, [['a']]⟩

theorem c1_relevant_event_dichotomy_witness :
    handleCompletion c1Env c1S c1C
      = StepResult.next c1S [Effect.rearmed 0, Effect.parsedBatch 0] :=
  (c1_relevant_event_dichotomy c1Env c1S c1C (by decide) (by decide) (by decide)
    (by decide) (by decide) (by decide)).1 (by decide)

end PathMonitorModel
